import Mathlib

/-!
Verification of the gh-upload-image library (src/index.js) against its
natural-language specification.

The JavaScript source is shallowly embedded: pure helpers become Lean
functions over `String`/`Nat`, the orchestrator `uploadImage` becomes a
function over an explicit environment describing the outcomes of the
external process invocations and HTTP calls, together with the list of
external calls it performs.  JavaScript numbers that hold byte counts or
repository ids are modelled as `Nat`/`Option Int` (with `none` playing the
role of `NaN`); `undefined` fields of parsed JSON are modelled with
`Option`.
-/

namespace GhUploadImage

/-! Static tables: ALLOWED_EXTENSIONS and MIME_TYPES from src/index.js. -/

/-- Allowed file types for GitHub image upload, in source order. -/
def ALLOWED_EXTENSIONS : List String :=
  [".gif", ".jpg", ".jpeg", ".png", ".docx", ".gz", ".log", ".pdf",
   ".pptx", ".txt", ".xlsx", ".zip", ".webp", ".svg", ".mp4", ".mov"]

/-- MIME types mapping for common file extensions, in source order. -/
def MIME_TYPES : List (String × String) :=
  [(".gif", "image/gif"),
   (".jpg", "image/jpeg"),
   (".jpeg", "image/jpeg"),
   (".png", "image/png"),
   (".webp", "image/webp"),
   (".svg", "image/svg+xml"),
   (".pdf", "application/pdf"),
   (".docx", "application/vnd.openxmlformats-officedocument.wordprocessingml.document"),
   (".pptx", "application/vnd.openxmlformats-officedocument.presentationml.presentation"),
   (".xlsx", "application/vnd.openxmlformats-officedocument.spreadsheetml.sheet"),
   (".txt", "text/plain"),
   (".log", "text/plain"),
   (".gz", "application/gzip"),
   (".zip", "application/zip"),
   (".mp4", "video/mp4"),
   (".mov", "video/quicktime")]

/-! String helpers with JavaScript semantics. -/

/-- Model of JavaScript `String.prototype.toLowerCase` restricted to the
ASCII range, which is the only range occurring in extension lookups. -/
def lowerStr (s : String) : String :=
  String.mk (s.data.map Char.toLower)

/-- Model of JavaScript `String.prototype.trim`: strip whitespace from both
ends. -/
def jsTrim (s : String) : String :=
  String.mk
    (((s.data.dropWhile Char.isWhitespace).reverse.dropWhile Char.isWhitespace).reverse)

/-- Model of JavaScript `String.prototype.split` with a single-character
separator, over character lists: splitting the empty string yields one
empty segment, and adjacent separators yield empty segments. -/
def jsSplit (sep : Char) : List Char → List (List Char)
  | [] => [[]]
  | c :: rest =>
    let r := jsSplit sep rest
    if c = sep then [] :: r
    else
      match r with
      | h :: t => (c :: h) :: t
      | [] => [[c]]

/-! Node path.extname (posix).

The state of Node's right-to-left scan in `path.posix.extname`.  `startDot`
and `endIdx` are `none` while the corresponding index variables are `-1` in
the Node source; `preDotState` is the integer state variable of the loop. -/

structure ExtState where
  startDot : Option Nat
  startPart : Nat
  endIdx : Option Nat
  matchedSlash : Bool
  preDotState : Int
deriving Repr

/-- One pass of the `extname` scan.  The input list is the reversed
character list of the path, so the element at the head has index equal to
the length of the tail; the scan breaks at the first `/` found after a
non-slash character, exactly as the Node loop does. -/
def extScan : List Char → ExtState → ExtState
  | [], st => st
  | c :: rest, st =>
    let i := rest.length
    if c = '/' then
      if st.matchedSlash then extScan rest st
      else { st with startPart := i + 1 }
    else
      let st1 :=
        if st.endIdx.isNone then
          { st with matchedSlash := false, endIdx := some (i + 1) }
        else st
      if c = '.' then
        let st2 :=
          if st1.startDot.isNone then { st1 with startDot := some i }
          else if st1.preDotState ≠ 1 then { st1 with preDotState := 1 }
          else st1
        extScan rest st2
      else
        let st2 :=
          if st1.startDot.isSome then { st1 with preDotState := -1 }
          else st1
        extScan rest st2

/-- Initial state of the `extname` scan. -/
def extInit : ExtState :=
  { startDot := none, startPart := 0, endIdx := none,
    matchedSlash := true, preDotState := 0 }

/-- Final step of Node `path.extname`: given the characters of the path
and the final scan state, return the empty string under the Node guard
conditions and the slice from the dot to the end otherwise. -/
def extnameFrom (cs : List Char) (st : ExtState) : String :=
  match st.startDot, st.endIdx with
  | some sd, some en =>
    if st.preDotState = 0 ∨
        (st.preDotState = 1 ∧ sd + 1 = en ∧ sd = st.startPart + 1) then ""
    else String.mk ((cs.drop sd).take (en - sd))
  | _, _ => ""

/-- Model of Node `path.extname` (posix), used by `getMimeType` and
`isExtensionAllowed` in the source. -/
def extname (p : String) : String :=
  extnameFrom p.data (extScan p.data.reverse extInit)

/-- Model of getMimeType from src/index.js: MIME type of the lowercased extension,
defaulting to the generic binary-stream type. -/
def getMimeType (filePath : String) : String :=
  let ext := lowerStr (extname filePath)
  (List.lookup ext MIME_TYPES).getD "application/octet-stream"

/-- Model of isExtensionAllowed from src/index.js. -/
def isExtensionAllowed (filePath : String) : Bool :=
  let ext := lowerStr (extname filePath)
  ALLOWED_EXTENSIONS.contains ext

/-! Section formatFileSize.

The source computes `unitIndex = min(floor(log(bytes)/log(1024)), 4)` with
IEEE doubles and renders `bytes / 1024^unitIndex` with two decimals via
`toFixed(2)` (no decimals in the byte bucket).  For natural-number byte
counts the double computation of the floored logarithm agrees with
`Nat.log 1024`, and the quotient by a power of two is exact in doubles, so
`toFixed(2)` is rounding the exact rational to two decimals with ties away
from zero; `jsToFixed2` implements exactly that rounding. -/

/-- Render `num / den` (a positive rational) with exactly two decimal
places, rounding to nearest with ties away from zero, as JavaScript
`toFixed(2)` does on an exactly-represented quotient. -/
def jsToFixed2 (num den : Nat) : String :=
  let n := (200 * num + den) / (2 * den)
  toString (n / 100) ++ "." ++
    (if n % 100 < 10 then "0" else "") ++ toString (n % 100)

/-- Model of formatFileSize from src/index.js over natural byte counts. -/
def formatFileSize (bytes : Nat) : String :=
  if bytes = 0 then "0 B"
  else
    let units := ["B", "KB", "MB", "GB", "TB"]
    let unitIndex := min (Nat.log 1024 bytes) (units.length - 1)
    if unitIndex = 0 then toString bytes ++ " B"
    else jsToFixed2 bytes (1024 ^ unitIndex) ++ " " ++ units.getD unitIndex ""

/-! Node path.basename (posix). -/

/-- Model of Node `path.basename`: drop trailing slashes, then take the
final slash-free component. -/
def basename (p : String) : String :=
  String.mk (((p.data.reverse.dropWhile (· = '/')).takeWhile (· ≠ '/')).reverse)

/-! Error taxonomy.

The source throws plain `Error`s; the constructors below tag each distinct
throw site (the taxonomy of spec section 7).  `jsTypeError` stands for a
runtime `TypeError` raised by the JavaScript semantics itself rather than
by a `throw` statement in the source (e.g. `Object.entries(undefined)` or
`fetch(undefined)`). -/

inductive UploadError where
  | missingArgument (field : String)
  | fileNotFound (path : String)
  | unsupportedExtension (ext : String)
  | invalidReference (input : String)
  | authenticationFailed (msg : String)
  | repositoryResolutionFailed (msg : String)
  | policyRequestFailed (msg : String)
  | uploadFailed (msg : String)
  | jsTypeError (msg : String)
deriving DecidableEq, Repr

/-! Section parseRepository.

The source first runs the regex match
`repository.match(/github\.com[\x2f:]([^\x2f]+)\x2f([^\x2f.]+)/)` and, when
it fails, falls back to splitting on `/` and accepting exactly two parts.
`dropLit`, `matchGhAt` and `urlScan` implement the regex search: for this
pattern the greedy groups admit a unique placement, so the search is the
leftmost position at which the literal `github.com` is followed by `/` or
`:`, a nonempty slash-free owner run, `/`, and a nonempty run free of `/`
and `.`. -/

/-- Consume an exact literal at the head of the input. -/
def dropLit : List Char → List Char → Option (List Char)
  | [], rest => some rest
  | _, [] => none
  | p :: ps, c :: cs => if c = p then dropLit ps cs else none

/-- Try the URL/SSH pattern at the current position.  The owner group is
the maximal nonempty slash-free run after the separator, followed by a
literal slash; the name group is the maximal nonempty run free of slash
and dot. -/
def matchGhAt (l : List Char) : Option (String × String) :=
  match dropLit "github.com".data l with
  | none => none
  | some [] => none
  | some (c :: rest2) =>
    if c = '/' ∨ c = ':' then
      match rest2.dropWhile (· ≠ '/') with
      | '/' :: rest4 =>
        if (rest2.takeWhile (· ≠ '/')).isEmpty then none
        else
          if (rest4.takeWhile (fun ch => ch ≠ '/' ∧ ch ≠ '.')).isEmpty then none
          else some (String.mk (rest2.takeWhile (· ≠ '/')),
                     String.mk (rest4.takeWhile (fun ch => ch ≠ '/' ∧ ch ≠ '.')))
      | _ => none
    else none

/-- Leftmost search of the URL/SSH pattern, as `String.prototype.match`
performs for a non-global regex. -/
def urlScan : List Char → Option (String × String)
  | [] => none
  | l@(_ :: rest) =>
    match matchGhAt l with
    | some r => some r
    | none => urlScan rest

/-- Result record of `parseRepository` (the `{owner, repo}` object). -/
structure ParsedRepository where
  owner : String
  repo : String
deriving DecidableEq, Repr

/-- Model of parseRepository from src/index.js. -/
def parseRepository (repository : String) : Except UploadError ParsedRepository :=
  match urlScan repository.data with
  | some (o, r) => .ok ⟨o, r⟩
  | none =>
    match (jsSplit '/' repository.data).map String.mk with
    | [a, b] => .ok ⟨a, b⟩
    | _ => .error (.invalidReference repository)

/-! External processes and HTTP: the effect model.

`execCommand` in the source spawns a process and either rejects on a spawn
error, resolves the trimmed stdout on exit code 0, or rejects with the
trimmed stderr (or a fallback message) on a non-zero exit.  `ExecOutcome`
records what the spawned process did; `runExecCommand` is the promise
semantics of `execCommand`. -/

inductive ExecOutcome where
  | spawnError (msg : String)
  | closed (code : Int) (stdout : String) (stderr : String)
deriving DecidableEq, Repr

/-- Promise semantics of `execCommand` from src/index.js. -/
def runExecCommand : ExecOutcome → Except String String
  | .spawnError msg => .error msg
  | .closed code stdout stderr =>
    if code = 0 then .ok (jsTrim stdout)
    else .error (if jsTrim stderr ≠ "" then jsTrim stderr
                 else "Command failed with exit code " ++ toString code)

/-- Model of JavaScript `parseInt(s, 10)`: skip leading whitespace, read an
optional sign and then a maximal digit run; `none` models `NaN`. -/
def jsParseInt (s : String) : Option Int :=
  let cs := s.data.dropWhile Char.isWhitespace
  let signAndRest : Bool × List Char :=
    match cs with
    | '-' :: r => (true, r)
    | '+' :: r => (false, r)
    | r => (false, r)
  let digs := signAndRest.2.takeWhile Char.isDigit
  if digs.isEmpty then none
  else
    let n : Nat := digs.foldl (fun a c => a * 10 + (c.toNat - 48)) 0
    some (if signAndRest.1 then -(n : Int) else (n : Int))

/-- JavaScript number-to-string for the repository id: `NaN` prints as the
literal string NaN, integers print in decimal. -/
def jsIntToString : Option Int → String
  | none => "NaN"
  | some n => toString n

/-- An HTTP response as seen by the source: status, status text and body
text.  `ok` is the WHATWG `Response.ok` predicate. -/
structure HttpResponse where
  status : Nat
  statusText : String
  bodyText : String
deriving DecidableEq, Repr

/-- Predicate Response.ok: status in the inclusive range 200-299. -/
def HttpResponse.ok (r : HttpResponse) : Bool :=
  decide (200 ≤ r.status) && decide (r.status ≤ 299)

/-- The parsed JSON body of a policy response, restricted to the fields the
source reads: `upload_url`, `form` (an ordered string-to-string object) and
`asset.id`.  A `none` field models the field (or, for `assetId`, the whole
`asset` object) being absent, which in the source surfaces as `undefined`. -/
structure PolicyJson where
  upload_url : Option String
  form : Option (List (String × String))
  assetId : Option String
deriving DecidableEq, Repr

/-- The environment an `uploadImage` run executes in: the local filesystem
(existing regular files and their byte sizes), the behaviour of the two
`gh` process invocations, and the two HTTP responses.  `policyJson` is the
parse of the policy response body, supplied directly since the claims only
concern well-formed JSON bodies. -/
structure Env where
  files : String → Option Nat
  ghAuthToken : ExecOutcome
  ghRepoApi : ExecOutcome
  policyResponse : HttpResponse
  policyJson : PolicyJson
  uploadResponse : HttpResponse

/-- The options object taken by `uploadImage` (logger omitted: logging does
not influence the result or the external calls). -/
structure UploadOptions where
  filePath : String
  repository : String
  verbose : Bool
  dryMode : Bool
deriving DecidableEq, Repr

/-- The result object returned by `uploadImage`. -/
structure UploadResult where
  url : String
  assetId : Option String
  fileName : String
  fileSize : Nat
  mimeType : String
  repository : String
  dryMode : Bool
deriving DecidableEq, Repr

/-- One external call made during a run: a spawned process, the policy POST
(with its four form-encoded body fields and the bearer token), or the
multipart storage POST (target URL, echoed policy form fields, and the
file field's name, MIME type and file name). -/
inductive ExtCall where
  | exec (cmd : String) (args : List String)
  | policyPost (name size content_type repository_id token : String)
  | storagePost (url : String) (formFields : List (String × String))
      (fileField : String × String × String)
deriving DecidableEq, Repr

/-- Model of fileExists from src/index.js, over the environment filesystem. -/
def fileExists (env : Env) (filePath : String) : Bool :=
  (env.files filePath).isSome

/-- Model of getFileSize from src/index.js (only called on existing files). -/
def getFileSize (env : Env) (filePath : String) : Nat :=
  (env.files filePath).getD 0

/-- Model of validateUploadInput from src/index.js: the four checks in source
order; `none` means validation passed.  Empty strings model the falsy
missing arguments. -/
def validateUploadInput (env : Env) (filePath repository : String) :
    Option UploadError :=
  if filePath = "" then some (.missingArgument "filePath is required in options")
  else if repository = "" then
    some (.missingArgument "repository is required in options")
  else if ¬ fileExists env filePath then
    some (.fileNotFound ("File does not exist: " ++ filePath))
  else if ¬ isExtensionAllowed filePath then
    some (.unsupportedExtension (lowerStr (extname filePath)))
  else none

/-- Model of getGitHubToken from src/index.js: wraps any `execCommand` failure of
`gh auth token` in an authentication error. -/
def getGitHubToken (env : Env) : Except UploadError String :=
  match runExecCommand env.ghAuthToken with
  | .ok token => .ok token
  | .error msg =>
    .error (.authenticationFailed
      ("Failed to get GitHub token. Make sure you are logged in with \"gh auth login\". "
        ++ msg))

/-- Model of getRepositoryId from src/index.js: wraps `execCommand` failures of the
`gh api` call, but applies `parseInt` to a successful stdout without any
numeric check — a non-numeric stdout yields `NaN` (`none`), not an error. -/
def getRepositoryId (env : Env) (owner repo : String) :
    Except UploadError (Option Int) :=
  match runExecCommand env.ghRepoApi with
  | .ok out => .ok (jsParseInt out)
  | .error msg =>
    .error (.repositoryResolutionFailed
      ("Failed to get repository ID for " ++ owner ++ "/" ++ repo
        ++ ". Make sure the repository exists and you have access. " ++ msg))

/-- Model of requestUploadPolicy from src/index.js: a non-2xx response is a policy
error carrying status and body text; a 2xx response is parsed as JSON and
returned without inspecting its fields. -/
def requestUploadPolicy (env : Env) : Except UploadError PolicyJson :=
  if env.policyResponse.ok then .ok env.policyJson
  else
    .error (.policyRequestFailed
      ("Failed to get upload policy: " ++ toString env.policyResponse.status
        ++ " " ++ env.policyResponse.statusText ++ ". "
        ++ env.policyResponse.bodyText))

/-- Acceptance predicate of the storage upload in the source:
`response.ok || response.status === 201 || response.status === 204`. -/
def storageSuccess (resp : HttpResponse) : Bool :=
  resp.ok || decide (resp.status = 201) || decide (resp.status = 204)

/-- Model of uploadFileToStorage from src/index.js.  Reading `policy.form` when it
is absent raises a `TypeError` (`Object.entries(undefined)`), and fetching
an absent `upload_url` raises a `TypeError` while parsing the URL; both are
modelled before the storage call is recorded, since neither reaches the
network.  Statuses accepted are `ok` (200-299), 201 and 204; any other is
an upload failure. -/
def uploadFileToStorage (env : Env) (policy : PolicyJson)
    (fileName mimeType : String) : Except UploadError (List ExtCall) :=
  match policy.form with
  | none => .error (.jsTypeError "Object.entries called on undefined")
  | some form =>
    match policy.upload_url with
    | none => .error (.jsTypeError "Failed to parse URL from undefined")
    | some uurl =>
      let call := ExtCall.storagePost uurl form ("file", mimeType, fileName)
      let resp := env.uploadResponse
      if storageSuccess resp then .ok [call]
      else
        .error (.uploadFailed
          ("Failed to upload file: " ++ toString resp.status ++ " "
            ++ resp.statusText ++ ". " ++ resp.bodyText))

/-- Model of uploadImage from src/index.js, instrumented with the list of external
calls (process spawns and HTTP requests) the run performs, in order. -/
def uploadImageT (env : Env) (opts : UploadOptions) :
    Except UploadError UploadResult × List ExtCall :=
  match validateUploadInput env opts.filePath opts.repository with
  | some e => (.error e, [])
  | none =>
    match parseRepository opts.repository with
    | .error e => (.error e, [])
    | .ok pr =>
      let owner := pr.owner
      let repo := pr.repo
      let fileName := basename opts.filePath
      let fileSize := getFileSize env opts.filePath
      let mimeType := getMimeType opts.filePath
      if opts.dryMode then
        (.ok { url := "[DRY MODE] Would upload " ++ fileName ++ " to "
                        ++ owner ++ "/" ++ repo,
               assetId := none, fileName := fileName, fileSize := fileSize,
               mimeType := mimeType, repository := owner ++ "/" ++ repo,
               dryMode := true }, [])
      else
        let tokCall := ExtCall.exec "gh" ["auth", "token"]
        match getGitHubToken env with
        | .error e => (.error e, [tokCall])
        | .ok token =>
          let ridCall := ExtCall.exec "gh"
            ["api", "repos/" ++ owner ++ "/" ++ repo, "--jq", ".id"]
          match getRepositoryId env owner repo with
          | .error e => (.error e, [tokCall, ridCall])
          | .ok repositoryId =>
            let pCall := ExtCall.policyPost fileName (toString fileSize)
              mimeType (jsIntToString repositoryId) token
            let prior := [tokCall, ridCall, pCall]
            match requestUploadPolicy env with
            | .error e => (.error e, prior)
            | .ok policy =>
              match uploadFileToStorage env policy fileName mimeType with
              | .error e => (.error e, prior)
              | .ok upCalls =>
                let assetId := policy.assetId
                let url := "https://github.com/user-attachments/assets/"
                  ++ assetId.getD "undefined"
                (.ok { url := url, assetId := assetId, fileName := fileName,
                       fileSize := fileSize, mimeType := mimeType,
                       repository := owner ++ "/" ++ repo, dryMode := false },
                 prior ++ upCalls)

/-- Model of generateMarkdown from src/index.js (alt text precedence: explicit
argument, then file name, then the literal string image; `none` models an
omitted argument / absent field). -/
def generateMarkdown (url : String) (fileName : Option String)
    (altText : Option String) : String :=
  let alt := (altText.filter (· ≠ "")).getD
    (((fileName.filter (· ≠ ""))).getD "image")
  "![" ++ alt ++ "](" ++ url ++ ")"

/-! Specification-side documented MIME table.

The pairs below are written from the documented expectations (the MIME
strings asserted in the test suite and the office-document types of the
published table), in the order the tests enumerate them, to be compared
against the behaviour of the embedded `getMimeType`. -/

/-- Documented MIME type of a lowercased extension, per the published
expectations; `none` for an undocumented extension. -/
def documentedMimeType (ext : String) : Option String :=
  List.lookup ext
    [(".png", "image/png"),
     (".jpg", "image/jpeg"),
     (".jpeg", "image/jpeg"),
     (".gif", "image/gif"),
     (".webp", "image/webp"),
     (".svg", "image/svg+xml"),
     (".pdf", "application/pdf"),
     (".txt", "text/plain"),
     (".log", "text/plain"),
     (".zip", "application/zip"),
     (".gz", "application/gzip"),
     (".mp4", "video/mp4"),
     (".mov", "video/quicktime"),
     (".docx", "application/vnd.openxmlformats-officedocument.wordprocessingml.document"),
     (".pptx", "application/vnd.openxmlformats-officedocument.presentationml.presentation"),
     (".xlsx", "application/vnd.openxmlformats-officedocument.spreadsheetml.sheet")]

/-! Concrete environments and inputs used by witnesses and
counterexamples. -/

/-- A fully successful environment: a 10-byte img.png on disk, a working
token, resolver output 42, a complete 200 policy response and a 204 storage
response. -/
def envOk : Env :=
  { files := fun p => if p = "img.png" then some 10 else none
    ghAuthToken := .closed 0 "tok" ""
    ghRepoApi := .closed 0 "42" ""
    policyResponse := { status := 200, statusText := "OK", bodyText := "" }
    policyJson := { upload_url := some "https://store/x",
                    form := some [("k", "v")], assetId := some "abc123" }
    uploadResponse := { status := 204, statusText := "No Content", bodyText := "" } }

/-- Standard non-dry upload options for img.png into o/r. -/
def optsStd : UploadOptions :=
  { filePath := "img.png", repository := "o/r", verbose := false, dryMode := false }

/-- The dry-run variant of the standard options. -/
def optsDry : UploadOptions :=
  { optsStd with dryMode := true }

/-- Like envOk but the 200 policy response carries no asset id. -/
def envNoAsset : Env :=
  { envOk with policyJson := { upload_url := some "https://store/x",
                               form := some [("k", "v")], assetId := none } }

/-- Like envOk but the 200 policy response carries no upload_url. -/
def envNoUrl : Env :=
  { envOk with policyJson := { upload_url := none,
                               form := some [("k", "v")], assetId := some "x" } }

/-- A second upload_url-less environment, with two form fields and no
asset id in the 200 policy response. -/
def envNoUrl2 : Env :=
  { envOk with policyJson := { upload_url := none,
                               form := some [("a", "b"), ("c", "d")], assetId := none } }

/-- Like envOk but the resolver exits 0 printing non-numeric output. -/
def envNaN : Env :=
  { envOk with ghRepoApi := .closed 0 "not-a-number" "" }

/-- Like envOk but the resolver process fails to spawn. -/
def envSpawnErr : Env :=
  { envOk with ghRepoApi := .spawnError "spawn gh ENOENT" }

/-- The result of a fully successful run of uploadImageT on envOk. -/
def resultOk : UploadResult :=
  { url := "https://github.com/user-attachments/assets/abc123",
    assetId := some "abc123", fileName := "img.png", fileSize := 10,
    mimeType := "image/png", repository := "o/r", dryMode := false }

/-- The external calls of a fully successful run of uploadImageT on
envOk. -/
def callsOk : List ExtCall :=
  [.exec "gh" ["auth", "token"],
   .exec "gh" ["api", "repos/o/r", "--jq", ".id"],
   .policyPost "img.png" "10" "image/png" "42" "tok",
   .storagePost "https://store/x" [("k", "v")] ("file", "image/png", "img.png")]

/-! Theorems. -/

/-- C7: parseRepository returns owner and repo for each of the four
accepted reference forms, and fails with an invalid-reference error for
the inputs invalid, the empty string, and a/b/c. -/
theorem C7_parseRepository_examples :
    parseRepository "owner/repo" = .ok ⟨"owner", "repo"⟩ ∧
    parseRepository "https://github.com/owner/repo" = .ok ⟨"owner", "repo"⟩ ∧
    parseRepository "https://github.com/owner/repo.git" = .ok ⟨"owner", "repo"⟩ ∧
    parseRepository "git@github.com:owner/repo.git" = .ok ⟨"owner", "repo"⟩ ∧
    parseRepository "invalid" = .error (.invalidReference "invalid") ∧
    parseRepository "" = .error (.invalidReference "") ∧
    parseRepository "a/b/c" = .error (.invalidReference "a/b/c") :=
  ⟨rfl, rfl, rfl, rfl, rfl, rfl, rfl⟩

/-- C6 counterexample: the fallback branch of parseRepository accepts the
inputs a/ and /b, which split into exactly two segments one of which is
empty, returning an empty owner or repo instead of failing with an
invalid-reference error as claimed. -/
theorem C6_counterexample :
    parseRepository "a/" = .ok ⟨"a", ""⟩ ∧
    parseRepository "/b" = .ok ⟨"", "b"⟩ :=
  ⟨rfl, rfl⟩

/-- C1 counterexample: a non-dry run against a 200 policy response that
lacks an asset id succeeds with assetId absent and a url ending in the
literal string undefined, contradicting the claimed invariant that
dryRun=false results carry a non-absent assetId. -/
theorem C1_counterexample :
    (uploadImageT envNoAsset optsStd).1 =
      .ok { url := "https://github.com/user-attachments/assets/undefined",
            assetId := none, fileName := "img.png", fileSize := 10,
            mimeType := "image/png", repository := "o/r", dryMode := false } :=
  rfl

/-- C2 counterexample: a 200 policy response whose body lacks upload_url is
not rejected at the policy step; the run proceeds and dies with a generic
TypeError when fetch parses the absent URL, not with a policy-request
error as claimed. -/
theorem C2_counterexample :
    (uploadImageT envNoUrl optsStd).1 =
      .error (.jsTypeError "Failed to parse URL from undefined") :=
  rfl

/-- C3 counterexample: when the resolver exits 0 with non-numeric stdout,
the run does not fail with a repository-resolution error; parseInt yields
NaN, the policy request is sent with repository_id NaN, and the upload
completes successfully. -/
theorem C3_counterexample :
    uploadImageT envNaN optsStd =
      (.ok { url := "https://github.com/user-attachments/assets/abc123",
             assetId := some "abc123", fileName := "img.png", fileSize := 10,
             mimeType := "image/png", repository := "o/r", dryMode := false },
       [.exec "gh" ["auth", "token"],
        .exec "gh" ["api", "repos/o/r", "--jq", ".id"],
        .policyPost "img.png" "10" "image/png" "NaN" "tok",
        .storagePost "https://store/x" [("k", "v")] ("file", "image/png", "img.png")]) :=
  rfl

/-- C4: validation is checked in source order (missing filePath, missing
repository, file not found, unsupported extension) and any validation
failure aborts the run with an empty external-call trace, so no credential
provider process or network call is ever made; in particular a
non-existent file path fails with the file-not-found error before any
credential provider invocation. -/
theorem C4_validation_before_external_calls (env : Env) (opts : UploadOptions) :
    (opts.filePath = "" →
      uploadImageT env opts =
        (.error (.missingArgument "filePath is required in options"), [])) ∧
    (opts.filePath ≠ "" → opts.repository = "" →
      uploadImageT env opts =
        (.error (.missingArgument "repository is required in options"), [])) ∧
    (opts.filePath ≠ "" → opts.repository ≠ "" →
      fileExists env opts.filePath = false →
      uploadImageT env opts =
        (.error (.fileNotFound ("File does not exist: " ++ opts.filePath)), [])) ∧
    (opts.filePath ≠ "" → opts.repository ≠ "" →
      fileExists env opts.filePath = true →
      isExtensionAllowed opts.filePath = false →
      uploadImageT env opts =
        (.error (.unsupportedExtension (lowerStr (extname opts.filePath))), [])) := by
  refine ⟨fun h1 => ?_, fun h1 h2 => ?_, fun h1 h2 h3 => ?_, fun h1 h2 h3 h4 => ?_⟩
  · simp [uploadImageT, validateUploadInput, h1]
  · simp [uploadImageT, validateUploadInput, h1, h2]
  · simp [uploadImageT, validateUploadInput, h1, h2, h3]
  · simp [uploadImageT, validateUploadInput, h1, h2, h3, h4]

/-- Any error produced by validateUploadInput is a missing-argument,
file-not-found or unsupported-extension error. -/
theorem validate_error_kinds (env : Env) (fp rp : String) (e : UploadError)
    (h : validateUploadInput env fp rp = some e) :
    (∃ s, e = .missingArgument s) ∨ (∃ s, e = .fileNotFound s) ∨
      (∃ s, e = .unsupportedExtension s) := by
  unfold validateUploadInput at h
  split at h
  · exact Or.inl ⟨_, (Option.some.inj h).symm⟩
  · split at h
    · exact Or.inl ⟨_, (Option.some.inj h).symm⟩
    · split at h
      · exact Or.inr (Or.inl ⟨_, (Option.some.inj h).symm⟩)
      · split at h
        · exact Or.inr (Or.inr ⟨_, (Option.some.inj h).symm⟩)
        · cases h

/-- Any error produced by parseRepository is an invalid-reference error. -/
theorem parse_error_kind (r : String) (e : UploadError)
    (h : parseRepository r = .error e) : ∃ s, e = .invalidReference s := by
  unfold parseRepository at h
  split at h
  · cases h
  · split at h
    · cases h
    · injection h with h
      exact ⟨_, h.symm⟩

/-- C5: with dryMode set, upload performs zero external calls and can
never fail with an authentication, repository-resolution, policy-request
or upload error; and whenever validation passes, the reference parses and
the file is on disk with size sz, it returns the dry-run result with
assetId absent, the file's size and MIME type, and the placeholder url
embedding the file name and repository. -/
theorem C5_dry_run_contract (env : Env) (opts : UploadOptions)
    (hd : opts.dryMode = true) :
    (uploadImageT env opts).2 = [] ∧
    (∀ msg,
      (uploadImageT env opts).1 ≠ .error (.authenticationFailed msg) ∧
      (uploadImageT env opts).1 ≠ .error (.repositoryResolutionFailed msg) ∧
      (uploadImageT env opts).1 ≠ .error (.policyRequestFailed msg) ∧
      (uploadImageT env opts).1 ≠ .error (.uploadFailed msg)) ∧
    (∀ pr sz,
      validateUploadInput env opts.filePath opts.repository = none →
      parseRepository opts.repository = .ok pr →
      env.files opts.filePath = some sz →
      (uploadImageT env opts).1 =
        .ok { url := "[DRY MODE] Would upload " ++ basename opts.filePath
                ++ " to " ++ pr.owner ++ "/" ++ pr.repo,
              assetId := none, fileName := basename opts.filePath,
              fileSize := sz, mimeType := getMimeType opts.filePath,
              repository := pr.owner ++ "/" ++ pr.repo, dryMode := true }) := by
  cases hv : validateUploadInput env opts.filePath opts.repository with
  | some e =>
    refine ⟨by simp [uploadImageT, hv], fun msg => ?_, fun pr sz h1 => by simp_all⟩
    rcases validate_error_kinds env _ _ e hv with ⟨s, rfl⟩ | ⟨s, rfl⟩ | ⟨s, rfl⟩ <;>
      simp [uploadImageT, hv]
  | none =>
    cases hp : parseRepository opts.repository with
    | error e =>
      refine ⟨by simp [uploadImageT, hv, hp], fun msg => ?_,
        fun pr sz h1 h2 => by simp_all⟩
      rcases parse_error_kind _ e hp with ⟨s, rfl⟩
      simp [uploadImageT, hv, hp]
    | ok pr' =>
      refine ⟨by simp [uploadImageT, hv, hp, hd], by simp [uploadImageT, hv, hp, hd],
        fun pr sz h1 h2 h3 => ?_⟩
      injection h2 with h2
      subst h2
      simp [uploadImageT, hv, hp, hd, getFileSize, h3]

/-- C5 witness: a dry run of a 10-byte img.png into o/r returns the
placeholder result with assetId absent, fileSize 10 and MIME type
image/png, with an empty external-call trace. -/
theorem C5_witness :
    (uploadImageT envOk optsDry).1 =
      .ok { url := "[DRY MODE] Would upload img.png to o/r",
            assetId := none, fileName := "img.png", fileSize := 10,
            mimeType := "image/png", repository := "o/r", dryMode := true } ∧
    (uploadImageT envOk optsDry).2 = [] :=
  ⟨(C5_dry_run_contract envOk optsDry rfl).2.2 ⟨"o", "r"⟩ 10 rfl rfl rfl,
   (C5_dry_run_contract envOk optsDry rfl).1⟩

/-- C4 witness: with the successful environment and a non-existent file
path, upload fails with the file-not-found error and performs zero
external calls. -/
theorem C4_witness :
    uploadImageT envOk { optsStd with filePath := "nope.png" } =
      (.error (.fileNotFound "File does not exist: nope.png"), []) :=
  (C4_validation_before_external_calls envOk
      { optsStd with filePath := "nope.png" }).2.2.1
    (by decide) (by decide) rfl

/-- A 2xx policy response is returned as its parsed JSON body. -/
theorem requestUploadPolicy_ok (env : Env) (p : PolicyJson)
    (h : requestUploadPolicy env = .ok p) : p = env.policyJson := by
  unfold requestUploadPolicy at h
  split at h
  · exact (Except.ok.inj h).symm
  · cases h

/-- With a 2xx policy response, requestUploadPolicy succeeds with the
parsed body. -/
theorem requestUploadPolicy_eq_ok (env : Env)
    (h : env.policyResponse.ok = true) :
    requestUploadPolicy env = .ok env.policyJson := by
  unfold requestUploadPolicy
  rw [if_pos h]

/-- Any error of requestUploadPolicy is a policy-request error. -/
theorem requestUploadPolicy_error_kind (env : Env) (e : UploadError)
    (h : requestUploadPolicy env = .error e) :
    ∃ s, e = .policyRequestFailed s := by
  unfold requestUploadPolicy at h
  split at h
  · cases h
  · exact ⟨_, (Except.error.inj h).symm⟩

/-- Any error of uploadFileToStorage is a TypeError or an upload error. -/
theorem uploadFileToStorage_error_kind (env : Env) (p : PolicyJson)
    (fn mt : String) (e : UploadError)
    (h : uploadFileToStorage env p fn mt = .error e) :
    (∃ s, e = .jsTypeError s) ∨ (∃ s, e = .uploadFailed s) := by
  unfold uploadFileToStorage at h
  split at h
  · exact Or.inl ⟨_, (Except.error.inj h).symm⟩
  · split at h
    · exact Or.inl ⟨_, (Except.error.inj h).symm⟩
    · by_cases hs : storageSuccess env.uploadResponse = true
      · simp [hs] at h
      · simp [hs] at h
        exact Or.inr ⟨_, h.symm⟩

/-- C1 (amended): every successful result satisfies: a dry-run result has
assetId absent and the placeholder url embedding file name and repository;
a non-dry result has assetId equal to the (possibly absent) asset id of
the policy response, and its url is the fixed CDN template instantiated
with that asset id when present and with the literal string undefined when
absent. -/
theorem C1_amended (env : Env) (opts : UploadOptions) (r : UploadResult)
    (calls : List ExtCall) (h : uploadImageT env opts = (.ok r, calls)) :
    (r.dryMode = true → r.assetId = none ∧
      r.url = "[DRY MODE] Would upload " ++ r.fileName ++ " to " ++ r.repository) ∧
    (r.dryMode = false → r.assetId = env.policyJson.assetId ∧
      r.url = "https://github.com/user-attachments/assets/"
        ++ r.assetId.getD "undefined") := by
  cases hv : validateUploadInput env opts.filePath opts.repository with
  | some e => simp [uploadImageT, hv] at h
  | none =>
  cases hp : parseRepository opts.repository with
  | error e => simp [uploadImageT, hv, hp] at h
  | ok pr =>
  by_cases hd : opts.dryMode = true
  · simp [uploadImageT, hv, hp, hd] at h
    obtain ⟨hr, -⟩ := h
    subst hr
    refine ⟨fun _ => ⟨rfl, ?_⟩, fun hfalse => by simp at hfalse⟩
    simp [String.append_assoc]
  · cases ht : getGitHubToken env with
    | error e => simp [uploadImageT, hv, hp, hd, ht] at h
    | ok tok =>
    cases hrid : getRepositoryId env pr.owner pr.repo with
    | error e => simp [uploadImageT, hv, hp, hd, ht, hrid] at h
    | ok rid =>
    cases hq : requestUploadPolicy env with
    | error e => simp [uploadImageT, hv, hp, hd, ht, hrid, hq] at h
    | ok policy =>
    cases hu : uploadFileToStorage env policy (basename opts.filePath)
        (getMimeType opts.filePath) with
    | error e => simp [uploadImageT, hv, hp, hd, ht, hrid, hq, hu] at h
    | ok upCalls =>
      have hpol := requestUploadPolicy_ok env policy hq
      subst hpol
      simp [uploadImageT, hv, hp, hd, ht, hrid, hq, hu] at h
      obtain ⟨hr, -⟩ := h
      subst hr
      exact ⟨fun htrue => by simp at htrue, fun _ => ⟨rfl, rfl⟩⟩

/-- C1 witness: the successful concrete run has dryMode false, assetId
equal to the policy's asset id, and the CDN template url instantiated with
it. -/
theorem C1_witness :
    resultOk.assetId = envOk.policyJson.assetId ∧
    resultOk.url = "https://github.com/user-attachments/assets/"
      ++ resultOk.assetId.getD "undefined" :=
  (C1_amended envOk optsStd resultOk callsOk rfl).2 rfl

/-- C2 (amended): under a 2xx policy response, a parsed body lacking
upload_url is not rejected at the policy step: the run proceeds and fails
with a generic TypeError when the absent URL is parsed for the storage
fetch; a body lacking only the asset id is tolerated and the run succeeds
with assetId absent and a url containing the literal string undefined. -/
theorem C2_amended (env : Env) (opts : UploadOptions) (pr : ParsedRepository)
    (hv : validateUploadInput env opts.filePath opts.repository = none)
    (hp : parseRepository opts.repository = .ok pr)
    (hd : opts.dryMode = false)
    (ht : ∃ tok, getGitHubToken env = .ok tok)
    (hr : ∃ rid, getRepositoryId env pr.owner pr.repo = .ok rid)
    (hok : env.policyResponse.ok = true) :
    (∀ f, env.policyJson.form = some f → env.policyJson.upload_url = none →
      (uploadImageT env opts).1 =
        .error (.jsTypeError "Failed to parse URL from undefined")) ∧
    (∀ f u, env.policyJson.form = some f → env.policyJson.upload_url = some u →
      env.policyJson.assetId = none → storageSuccess env.uploadResponse = true →
      (uploadImageT env opts).1 =
        .ok { url := "https://github.com/user-attachments/assets/undefined",
              assetId := none, fileName := basename opts.filePath,
              fileSize := getFileSize env opts.filePath,
              mimeType := getMimeType opts.filePath,
              repository := pr.owner ++ "/" ++ pr.repo, dryMode := false }) := by
  obtain ⟨tok, htok⟩ := ht
  obtain ⟨rid, hrid⟩ := hr
  constructor
  · intro f hf hu
    simp only [uploadImageT, hv, hp, hd, htok, hrid,
      requestUploadPolicy_eq_ok env hok, uploadFileToStorage, hf, hu]
    simp
  · intro f u hf hu ha hs
    simp only [uploadImageT, hv, hp, hd, htok, hrid,
      requestUploadPolicy_eq_ok env hok, uploadFileToStorage, hf, hu, hs]
    simp [ha]

/-- C2 witness: on a concrete environment whose 200 policy response has
two form fields but no upload_url, the run fails with the URL-parse
TypeError rather than a policy-request error. -/
theorem C2_witness :
    (uploadImageT envNoUrl2 optsStd).1 =
      .error (.jsTypeError "Failed to parse URL from undefined") :=
  (C2_amended envNoUrl2 optsStd ⟨"o", "r"⟩ rfl rfl rfl ⟨"tok", rfl⟩
      ⟨some 42, rfl⟩ rfl).1 [("a", "b"), ("c", "d")] rfl rfl

/-- C3 (amended): once the run reaches the resolver, a resolver process
failure (spawn error or non-zero exit) aborts with a repository-resolution
error after exactly the two process calls; but a zero exit is never a
repository-resolution failure regardless of stdout: parseInt of the
trimmed stdout is sent as repository_id in the policy request, unchanged
as a decimal numeral when numeric and as the literal NaN otherwise. -/
theorem C3_amended (env : Env) (opts : UploadOptions) (pr : ParsedRepository)
    (tok : String)
    (hv : validateUploadInput env opts.filePath opts.repository = none)
    (hp : parseRepository opts.repository = .ok pr)
    (hd : opts.dryMode = false)
    (ht : getGitHubToken env = .ok tok) :
    (∀ msg, runExecCommand env.ghRepoApi = .error msg →
      uploadImageT env opts =
        (.error (.repositoryResolutionFailed
          ("Failed to get repository ID for " ++ pr.owner ++ "/" ++ pr.repo
            ++ ". Make sure the repository exists and you have access. " ++ msg)),
         [.exec "gh" ["auth", "token"],
          .exec "gh" ["api", "repos/" ++ pr.owner ++ "/" ++ pr.repo, "--jq", ".id"]])) ∧
    (∀ out, runExecCommand env.ghRepoApi = .ok out →
      ∃ rest, (uploadImageT env opts).2 =
        .exec "gh" ["auth", "token"] ::
        .exec "gh" ["api", "repos/" ++ pr.owner ++ "/" ++ pr.repo, "--jq", ".id"] ::
        .policyPost (basename opts.filePath)
          (toString (getFileSize env opts.filePath)) (getMimeType opts.filePath)
          (jsIntToString (jsParseInt out)) tok :: rest) ∧
    (∀ out, runExecCommand env.ghRepoApi = .ok out →
      ∀ msg, (uploadImageT env opts).1 ≠
        .error (.repositoryResolutionFailed msg)) := by
  refine ⟨fun msg hmsg => ?_, fun out hout => ?_, fun out hout msg => ?_⟩
  · simp only [uploadImageT, hv, hp, hd, ht, getRepositoryId, hmsg]
    simp
  · simp only [uploadImageT, hv, hp, hd, ht, getRepositoryId, hout]
    cases hq : requestUploadPolicy env with
    | error e => exact ⟨[], by simp [hq]⟩
    | ok policy =>
      cases hu : uploadFileToStorage env policy (basename opts.filePath)
          (getMimeType opts.filePath) with
      | error e => exact ⟨[], by simp [hq, hu]⟩
      | ok upCalls => exact ⟨upCalls, by simp [hq, hu]⟩
  · simp only [uploadImageT, hv, hp, hd, ht, getRepositoryId, hout]
    cases hq : requestUploadPolicy env with
    | error e =>
      obtain ⟨s, rfl⟩ := requestUploadPolicy_error_kind env e hq
      simp [hq]
    | ok policy =>
      cases hu : uploadFileToStorage env policy (basename opts.filePath)
          (getMimeType opts.filePath) with
      | error e =>
        rcases uploadFileToStorage_error_kind env policy _ _ e hu with
          ⟨s, rfl⟩ | ⟨s, rfl⟩ <;> simp [hq, hu]
      | ok upCalls => simp [hq, hu]

/-- C3 witness: a resolver spawn failure aborts the concrete run with the
repository-resolution error after exactly the two process calls. -/
theorem C3_witness :
    uploadImageT envSpawnErr optsStd =
      (.error (.repositoryResolutionFailed
        "Failed to get repository ID for o/r. Make sure the repository exists and you have access. spawn gh ENOENT"),
       [.exec "gh" ["auth", "token"],
        .exec "gh" ["api", "repos/o/r", "--jq", ".id"]]) :=
  (C3_amended envSpawnErr optsStd ⟨"o", "r"⟩ "tok" rfl rfl rfl rfl).1
    "spawn gh ENOENT" rfl

/-- C6 (amended): when the URL/SSH pattern does not match, the fallback of
parseRepository succeeds exactly when splitting on the slash character
yields two segments, empty segments included; any other segment count
fails with the invalid-reference error. -/
theorem C6_amended (s : String) (h : urlScan s.data = none) :
    ((jsSplit '/' s.data).length ≠ 2 →
      parseRepository s = .error (.invalidReference s)) ∧
    (∀ a b, jsSplit '/' s.data = [a, b] →
      parseRepository s = .ok ⟨String.mk a, String.mk b⟩) := by
  constructor
  · intro hl
    unfold parseRepository
    rw [h]
    rcases hsp : jsSplit '/' s.data with _ | ⟨a, _ | ⟨b, _ | ⟨c, t⟩⟩⟩
    · simp [hsp]
    · simp [hsp]
    · exact absurd (by rw [hsp]; rfl) hl
    · simp [hsp]
  · intro a b hab
    unfold parseRepository
    rw [h]
    simp [hab]

/-- C6 witness: a slash-free input neither matches the URL pattern nor
splits into two segments, so it fails with the invalid-reference error. -/
theorem C6_witness :
    parseRepository "x-y" = .error (.invalidReference "x-y") :=
  (C6_amended "x-y" rfl).1 (by decide)

/-- C9: formatFileSize renders 0 as 0 B, byte counts below 1024 with no
decimal places, and each higher base-1024 bucket as the quotient by the
bucket's power of 1024 rendered to two decimals with the KB, MB or GB
unit. -/
theorem C9_format_file_size :
    formatFileSize 0 = "0 B" ∧
    (∀ b, 0 < b → b < 1024 → formatFileSize b = toString b ++ " B") ∧
    (∀ b, 1024 ≤ b → b < 1024 ^ 2 →
      formatFileSize b = jsToFixed2 b 1024 ++ " KB") ∧
    (∀ b, 1024 ^ 2 ≤ b → b < 1024 ^ 3 →
      formatFileSize b = jsToFixed2 b (1024 ^ 2) ++ " MB") ∧
    (∀ b, 1024 ^ 3 ≤ b → b < 1024 ^ 4 →
      formatFileSize b = jsToFixed2 b (1024 ^ 3) ++ " GB") := by
  refine ⟨rfl, fun b h0 h1 => ?_, fun b h1 h2 => ?_, fun b h1 h2 => ?_,
    fun b h1 h2 => ?_⟩
  · have hl : Nat.log 1024 b = 0 := Nat.log_of_lt h1
    unfold formatFileSize
    rw [if_neg (by omega)]
    simp [hl]
  · have hl : Nat.log 1024 b = 1 :=
      Nat.log_eq_of_pow_le_of_lt_pow (by simpa using h1) (by norm_num at h2 ⊢; omega)
    unfold formatFileSize
    rw [if_neg (by omega)]
    simp [hl]
    rw [String.append_assoc]
    rfl
  · have hl : Nat.log 1024 b = 2 :=
      Nat.log_eq_of_pow_le_of_lt_pow (by norm_num at h1 ⊢; omega)
        (by norm_num at h2 ⊢; omega)
    unfold formatFileSize
    rw [if_neg (by omega)]
    simp [hl]
    rw [String.append_assoc]
    rfl
  · have hl : Nat.log 1024 b = 3 :=
      Nat.log_eq_of_pow_le_of_lt_pow (by norm_num at h1 ⊢; omega)
        (by norm_num at h2 ⊢; omega)
    unfold formatFileSize
    rw [if_neg (by omega)]
    simp [hl]
    rw [String.append_assoc]
    rfl

/-- C9 witness: concrete renderings in each bucket. -/
theorem C9_witness :
    formatFileSize 500 = "500 B" ∧ formatFileSize 1536 = "1.50 KB" ∧
    formatFileSize 5767168 = "5.50 MB" ∧ formatFileSize 1073741824 = "1.00 GB" :=
  ⟨C9_format_file_size.2.1 500 (by decide) (by decide),
   C9_format_file_size.2.2.1 1536 (by decide) (by decide),
   C9_format_file_size.2.2.2.1 5767168 (by decide) (by decide),
   C9_format_file_size.2.2.2.2 1073741824 (by decide) (by decide)⟩

/-- Taking while p over a list of satisfying elements followed by a
failing element returns exactly the satisfying elements. -/
theorem takeWhile_append_stop {α : Type} (p : α → Bool) (l : List α) (x : α)
    (r : List α) (hl : ∀ c ∈ l, p c = true) (hx : p x = false) :
    (l ++ x :: r).takeWhile p = l := by
  induction l with
  | nil => simp [List.takeWhile_cons, hx]
  | cons a t ih =>
    have ha : p a = true := hl a (by simp)
    simp only [List.cons_append, List.takeWhile_cons, ha, if_true]
    rw [ih (fun c hc => hl c (by simp [hc]))]

/-- Dropping while p over a list of satisfying elements followed by a
failing element returns the failing element and the tail. -/
theorem dropWhile_append_stop {α : Type} (p : α → Bool) (l : List α) (x : α)
    (r : List α) (hl : ∀ c ∈ l, p c = true) (hx : p x = false) :
    (l ++ x :: r).dropWhile p = x :: r := by
  induction l with
  | nil => simp [List.dropWhile_cons, hx]
  | cons a t ih =>
    have ha : p a = true := hl a (by simp)
    simp only [List.cons_append, List.dropWhile_cons, ha, if_true]
    exact ih (fun c hc => hl c (by simp [hc]))

/-- Consuming a literal off a list that starts with it leaves the rest. -/
theorem dropLit_self (lit rest : List Char) :
    dropLit lit (lit ++ rest) = some rest := by
  induction lit with
  | nil => simp [dropLit]
  | cons c t ih => simp [dropLit, ih]

/-- The URL/SSH pattern cannot match at a position whose character is not
the letter g. -/
theorem matchGhAt_ne_g (c : Char) (l : List Char) (h : c ≠ 'g') :
    matchGhAt (c :: l) = none := by
  unfold matchGhAt
  have hd : dropLit "github.com".data (c :: l) = none := by
    show dropLit ('g' :: "ithub.com".data) (c :: l) = none
    simp [dropLit, h]
  rw [hd]

/-- The scan skips a position whose character is not the letter g. -/
theorem urlScan_cons_ne (c : Char) (l : List Char) (h : c ≠ 'g') :
    urlScan (c :: l) = urlScan l := by
  simp [urlScan, matchGhAt_ne_g c l h]

/-- The scan skips any prefix containing no letter g. -/
theorem urlScan_append_no_g (pre l : List Char) (h : ∀ c ∈ pre, c ≠ 'g') :
    urlScan (pre ++ l) = urlScan l := by
  induction pre with
  | nil => rfl
  | cons c t ih =>
    rw [List.cons_append, urlScan_cons_ne c _ (h c (by simp)),
      ih (fun c hc => h c (by simp [hc]))]

/-- A successful pattern match at the head makes the scan succeed. -/
theorem urlScan_of_matchGhAt (c : Char) (l : List Char) (r : String × String)
    (h : matchGhAt (c :: l) = some r) : urlScan (c :: l) = some r := by
  simp [urlScan, h]

/-- The URL/SSH pattern match at a position spelling github.com, a
separator, a slash-free owner, a slash, and a name with a dot suffix,
captures the owner and the name up to the first dot. -/
theorem matchGhAt_gh (sep : Char) (own base suffix : List Char)
    (hsep : sep = '/' ∨ sep = ':')
    (ho : own ≠ []) (ho2 : ∀ c ∈ own, c ≠ '/')
    (hb : base ≠ []) (hb2 : ∀ c ∈ base, c ≠ '/' ∧ c ≠ '.') :
    matchGhAt ("github.com".data ++ (sep :: (own ++ ('/' :: (base ++ ('.' :: suffix))))))
      = some (String.mk own, String.mk base) := by
  unfold matchGhAt
  simp only [dropLit_self]
  rw [if_pos hsep]
  simp only [dropWhile_append_stop (fun x => decide (x ≠ '/')) own '/'
    (base ++ ('.' :: suffix)) (fun c hc => by simpa using ho2 c hc) (by decide)]
  rw [takeWhile_append_stop (fun x => decide (x ≠ '/')) own '/'
    (base ++ ('.' :: suffix)) (fun c hc => by simpa using ho2 c hc) (by decide)]
  rw [takeWhile_append_stop (fun ch => decide (ch ≠ '/' ∧ ch ≠ '.')) base '.'
    suffix (fun c hc => by simpa using hb2 c hc) (by decide)]
  rw [if_neg (by simpa [List.isEmpty_iff] using ho)]
  rw [if_neg (by simpa [List.isEmpty_iff] using hb)]

/-- A successful pattern match never captures a dot or slash in the name
group, since the name group is a run of characters excluding both. -/
theorem matchGhAt_some_shape (l : List Char) (o r : String)
    (h : matchGhAt l = some (o, r)) :
    ∀ c ∈ r.data, c ≠ '.' ∧ c ≠ '/' := by
  unfold matchGhAt at h
  split at h
  · cases h
  · cases h
  · split at h
    · split at h
      · split at h
        · cases h
        · split at h
          · cases h
          · injection h with h
            injection h with h1 h2
            subst h2
            intro c hc
            have hmem := List.mem_takeWhile_imp hc
            simp only [decide_eq_true_eq] at hmem
            exact ⟨hmem.2, hmem.1⟩
      · cases h
    · cases h

/-- A successful scan never captures a dot or slash in the repo
component. -/
theorem urlScan_some_name :
    ∀ (l : List Char) (o r : String), urlScan l = some (o, r) →
      ∀ c ∈ r.data, c ≠ '.' ∧ c ≠ '/' := by
  intro l
  induction l with
  | nil => intro o r h; cases h
  | cons a rest ih =>
    intro o r h
    cases hm : matchGhAt (a :: rest) with
    | some pr =>
      rw [urlScan_of_matchGhAt a rest pr hm] at h
      injection h with h
      subst h
      exact matchGhAt_some_shape (a :: rest) o r hm
    | none =>
      rw [urlScan, hm] at h
      exact ih o r h

/-- C10: in the URL/SSH branch of parseRepository the repo group stops at
the first dot, so any dot suffix is stripped, not only a .git suffix: a
reference spelling github.com, a separator, an owner, a slash, and a name
with a dot suffix parses to the owner and the name with the whole suffix
removed; and a repo component produced by the URL/SSH branch never
contains a dot (or slash) character. -/
theorem C10_url_branch_strips_dot_suffix :
    (∀ own base suffix : List Char,
      own ≠ [] → (∀ c ∈ own, c ≠ '/') →
      base ≠ [] → (∀ c ∈ base, c ≠ '/' ∧ c ≠ '.') →
      parseRepository (String.mk ("https://".data ++ ("github.com".data
          ++ ('/' :: (own ++ ('/' :: (base ++ ('.' :: suffix))))))))
        = .ok ⟨String.mk own, String.mk base⟩) ∧
    (∀ (s o r : String), urlScan s.data = some (o, r) →
      ∀ c ∈ r.data, c ≠ '.' ∧ c ≠ '/') := by
  constructor
  · intro own base suffix ho ho2 hb hb2
    have hscan : urlScan ("https://".data ++ ("github.com".data
        ++ ('/' :: (own ++ ('/' :: (base ++ ('.' :: suffix)))))))
        = some (String.mk own, String.mk base) := by
      rw [urlScan_append_no_g "https://".data _ (by decide)]
      exact urlScan_of_matchGhAt _ _ _
        (matchGhAt_gh '/' own base suffix (Or.inl rfl) ho ho2 hb hb2)
    unfold parseRepository
    rw [show (String.mk ("https://".data ++ ("github.com".data
        ++ ('/' :: (own ++ ('/' :: (base ++ ('.' :: suffix)))))))).data
      = "https://".data ++ ("github.com".data
        ++ ('/' :: (own ++ ('/' :: (base ++ ('.' :: suffix)))))) from rfl]
    rw [hscan]
  · exact fun s => urlScan_some_name s.data

/-- C10 witness: a concrete URL reference with a non-git dot suffix parses
with the suffix stripped. -/
theorem C10_witness :
    parseRepository "https://github.com/owner/repo.backup" =
      .ok ⟨"owner", "repo"⟩ :=
  C10_url_branch_strips_dot_suffix.1 "owner".data "repo".data "backup".data
    (by decide) (by decide) (by decide) (by decide)

/-- Characters that are neither a dot nor a slash leave the scan state
unchanged once the end index is set and no dot has been seen. -/
theorem extScan_clean_append (t r : List Char) (st : ExtState)
    (hclean : ∀ c ∈ t, c ≠ '.' ∧ c ≠ '/') (en : Nat)
    (hen : st.endIdx = some en) (hs : st.startDot = none) :
    extScan (t ++ r) st = extScan r st := by
  induction t with
  | nil => rfl
  | cons c tl ih =>
    have hc := hclean c (by simp)
    rw [List.cons_append,
      show extScan (c :: (tl ++ r)) st = extScan (tl ++ r) st from by
        simp [extScan, hc.1, hc.2, hen, hs]]
    exact ih (fun c hc => hclean c (by simp [hc]))

/-- Once the dot index, end index and a nonzero pre-dot state are set, the
rest of the scan never changes them (and the pre-dot state stays
nonzero). -/
theorem extScan_stable (l : List Char) :
    ∀ (st : ExtState) (sd en : Nat), st.startDot = some sd →
      st.endIdx = some en → st.preDotState ≠ 0 →
      (extScan l st).startDot = some sd ∧ (extScan l st).endIdx = some en ∧
        (extScan l st).preDotState ≠ 0 := by
  induction l with
  | nil => exact fun st sd en hsd hen hpre => ⟨hsd, hen, hpre⟩
  | cons c tl ih =>
    intro st sd en hsd hen hpre
    by_cases hslash : c = '/'
    · subst hslash
      by_cases hm : st.matchedSlash = true
      · rw [show extScan ('/' :: tl) st = extScan tl st from by simp [extScan, hm]]
        exact ih st sd en hsd hen hpre
      · rw [show extScan ('/' :: tl) st = { st with startPart := tl.length + 1 }
            from by simp [extScan, hm]]
        exact ⟨hsd, hen, hpre⟩
    · by_cases hdot : c = '.'
      · subst hdot
        by_cases hp1 : st.preDotState = 1
        · rw [show extScan ('.' :: tl) st = extScan tl st from by
              simp [extScan, hen, hsd, hp1]]
          exact ih st sd en hsd hen hpre
        · rw [show extScan ('.' :: tl) st = extScan tl { st with preDotState := 1 }
              from by simp [extScan, hen, hsd, hp1]]
          exact ih _ sd en (by simp [hsd]) (by simp [hen]) (by simp)
      · rw [show extScan (c :: tl) st = extScan tl { st with preDotState := -1 }
            from by simp [extScan, hslash, hdot, hen, hsd]]
        exact ih _ sd en (by simp [hsd]) (by simp [hen]) (by simp)

/-- Opening the scan on a nonempty run of clean characters sets the end
index to the full length and changes nothing else. -/
theorem extScan_open (l r : List Char) (hl : l ≠ [])
    (hclean : ∀ c ∈ l, c ≠ '.' ∧ c ≠ '/') :
    extScan (l ++ r) extInit =
      extScan r { startDot := none, startPart := 0,
                  endIdx := some (l.length + r.length),
                  matchedSlash := false, preDotState := 0 } := by
  cases l with
  | nil => exact absurd rfl hl
  | cons c t =>
    have hc := hclean c (by simp)
    have hlen : (t ++ r).length + 1 = (c :: t).length + r.length := by
      simp [List.length_append]
      omega
    rw [List.cons_append,
      show extScan (c :: (t ++ r)) extInit
          = extScan (t ++ r)
            { startDot := none, startPart := 0,
              endIdx := some ((t ++ r).length + 1), matchedSlash := false,
              preDotState := 0 }
        from by simp [extScan, extInit, hc.1, hc.2],
      extScan_clean_append t r _ (fun c hc => hclean c (by simp [hc])) _ rfl rfl,
      hlen]

/-- Node extname of a path of the form stem dot ext, where the stem is
nonempty and does not end in a slash and the ext part is nonempty and free
of dots and slashes, is the dot followed by the ext part. -/
theorem extname_concat (stem e : String) (h1 : stem ≠ "")
    (h2 : stem.data.getLast? ≠ some '/') (h3 : e ≠ "")
    (h4 : ∀ c ∈ e.data, c ≠ '.' ∧ c ≠ '/') :
    extname (stem ++ "." ++ e) = "." ++ e := by
  have hedata : e.data ≠ [] := fun hh => h3 (String.ext (by simpa using hh))
  have hsdata : stem.data ≠ [] := fun hh => h1 (String.ext (by simpa using hh))
  have hdata : (stem ++ "." ++ e).data = stem.data ++ ('.' :: e.data) := by
    simp [String.data_append]
  have hrev : (stem ++ "." ++ e).data.reverse
      = e.data.reverse ++ ('.' :: stem.data.reverse) := by
    rw [hdata]
    simp [List.reverse_append]
  obtain ⟨s0, srest, hsr⟩ : ∃ s0 srest, stem.data.reverse = s0 :: srest := by
    cases hh : stem.data.reverse with
    | nil => exact absurd (List.reverse_eq_nil_iff.mp hh) hsdata
    | cons a b => exact ⟨a, b, rfl⟩
  have hs0 : s0 ≠ '/' := by
    intro hh
    apply h2
    rw [← List.head?_reverse, hsr, hh]
    rfl
  have hscan : ∃ st, extScan (stem ++ "." ++ e).data.reverse extInit = st ∧
      st.startDot = some stem.data.length ∧
      st.endIdx = some (e.data.length + stem.data.length + 1) ∧
      st.preDotState ≠ 0 := by
    rw [hrev,
      extScan_open e.data.reverse _ (by simpa [List.reverse_eq_nil_iff] using hedata)
        (fun c hc => h4 c (List.mem_reverse.mp hc)),
      show e.data.reverse.length + ('.' :: stem.data.reverse).length
          = e.data.length + stem.data.length + 1 by
        simp [List.length_reverse]
        omega,
      show extScan ('.' :: stem.data.reverse)
            { startDot := none, startPart := 0,
              endIdx := some (e.data.length + stem.data.length + 1),
              matchedSlash := false, preDotState := 0 }
          = extScan stem.data.reverse
            { startDot := some stem.data.length, startPart := 0,
              endIdx := some (e.data.length + stem.data.length + 1),
              matchedSlash := false, preDotState := 0 } from by
        simp [extScan, List.length_reverse],
      hsr]
    by_cases hdot : s0 = '.'
    · subst hdot
      rw [show extScan ('.' :: srest)
            { startDot := some stem.data.length, startPart := 0,
              endIdx := some (e.data.length + stem.data.length + 1),
              matchedSlash := false, preDotState := 0 }
          = extScan srest
            { startDot := some stem.data.length, startPart := 0,
              endIdx := some (e.data.length + stem.data.length + 1),
              matchedSlash := false, preDotState := 1 } from by
        simp [extScan]]
      refine ⟨_, rfl, ?_⟩
      exact extScan_stable srest
        { startDot := some stem.data.length, startPart := 0,
          endIdx := some (e.data.length + stem.data.length + 1),
          matchedSlash := false, preDotState := 1 }
        stem.data.length (e.data.length + stem.data.length + 1)
        rfl rfl (by simp)
    · rw [show extScan (s0 :: srest)
            { startDot := some stem.data.length, startPart := 0,
              endIdx := some (e.data.length + stem.data.length + 1),
              matchedSlash := false, preDotState := 0 }
          = extScan srest
            { startDot := some stem.data.length, startPart := 0,
              endIdx := some (e.data.length + stem.data.length + 1),
              matchedSlash := false, preDotState := -1 } from by
        simp [extScan, hs0, hdot]]
      refine ⟨_, rfl, ?_⟩
      exact extScan_stable srest
        { startDot := some stem.data.length, startPart := 0,
          endIdx := some (e.data.length + stem.data.length + 1),
          matchedSlash := false, preDotState := -1 }
        stem.data.length (e.data.length + stem.data.length + 1)
        rfl rfl (by simp)
  obtain ⟨st, hst, hsd, hen, hpre⟩ := hscan
  unfold extname
  rw [hst]
  simp only [extnameFrom, hsd, hen]
  rw [if_neg (by
    rintro (hzero | ⟨-, hlen, -⟩)
    · exact hpre hzero
    · have : e.data.length = 0 := by omega
      exact hedata (List.length_eq_zero.mp this))]
  rw [hdata, List.drop_left,
    show e.data.length + stem.data.length + 1 - stem.data.length
        = ('.' :: e.data).length by simp; omega,
    List.take_length]
  rfl

/-- A successful association-list lookup means the pair is in the list. -/
theorem lookup_mem {β : Type} {a : String} {b : β} :
    ∀ {l : List (String × β)}, List.lookup a l = some b → (a, b) ∈ l := by
  intro l h
  induction l with
  | nil => cases h
  | cons p t ih =>
    obtain ⟨k, v⟩ := p
    by_cases hak : (a == k) = true
    · rw [List.lookup_cons, hak] at h
      injection h with h
      subst h
      have : a = k := by simpa using hak
      subst this
      exact List.mem_cons_self _ _
    · rw [List.lookup_cons, Bool.eq_false_iff.mpr hak] at h
      exact List.mem_cons_of_mem _ (ih h)

/-- Every key of the MIME table is in the allow-list. -/
theorem mime_keys_allowed :
    ∀ pair ∈ MIME_TYPES, pair.1 ∈ ALLOWED_EXTENSIONS := by decide

/-- Every allow-listed extension has a MIME table entry. -/
theorem allowed_have_mime :
    ∀ s ∈ ALLOWED_EXTENSIONS, (List.lookup s MIME_TYPES).isSome = true := by
  decide

/-- Every documented pair is also what the source MIME table returns. -/
theorem documented_pairs_in_mime :
    ∀ ext m, documentedMimeType ext = some m →
      List.lookup ext MIME_TYPES = some m := by
  intro ext m h
  have hmem := lookup_mem h
  fin_cases hmem <;> rfl

/-- Lowercasing distributes over prepending the dot. -/
theorem lowerStr_dot (e : String) :
    lowerStr ("." ++ e) = "." ++ lowerStr e := by
  apply String.ext
  simp [lowerStr, String.data_append]

/-- C8: for a file name of the form stem dot ext (nonempty stem not ending
in a slash, nonempty dot-free slash-free ext), isExtensionAllowed is true
exactly when the lowercased extension is in the 16-entry allow-list;
getMimeType returns the documented MIME type of the lowercased extension
whenever it is documented (so lookup is case-insensitive), and for any
extension outside the allow-list isExtensionAllowed is false and
getMimeType returns application/octet-stream. -/
theorem C8_mime_contract (stem e : String) (h1 : stem ≠ "")
    (h2 : stem.data.getLast? ≠ some '/') (h3 : e ≠ "")
    (h4 : ∀ c ∈ e.data, c ≠ '.' ∧ c ≠ '/') :
    (isExtensionAllowed (stem ++ "." ++ e) = true ↔
      ("." ++ lowerStr e) ∈ ALLOWED_EXTENSIONS) ∧
    (∀ m, documentedMimeType ("." ++ lowerStr e) = some m →
      getMimeType (stem ++ "." ++ e) = m) ∧
    (("." ++ lowerStr e) ∉ ALLOWED_EXTENSIONS →
      isExtensionAllowed (stem ++ "." ++ e) = false ∧
      getMimeType (stem ++ "." ++ e) = "application/octet-stream") := by
  have hext : lowerStr (extname (stem ++ "." ++ e)) = "." ++ lowerStr e := by
    rw [extname_concat stem e h1 h2 h3 h4, lowerStr_dot]
  refine ⟨?_, ?_, ?_⟩
  · rw [isExtensionAllowed, hext]
    exact List.elem_iff
  · intro m hm
    rw [getMimeType, hext, documented_pairs_in_mime _ _ hm]
    rfl
  · intro hnot
    have hlk : List.lookup ("." ++ lowerStr e) MIME_TYPES = none := by
      cases hl : List.lookup ("." ++ lowerStr e) MIME_TYPES with
      | none => rfl
      | some v =>
        exact absurd (mime_keys_allowed _ (lookup_mem hl)) hnot
    constructor
    · rw [isExtensionAllowed, hext]
      exact Bool.eq_false_iff.mpr (fun hc => hnot (List.elem_iff.mp hc))
    · rw [getMimeType, hext, hlk]
      rfl

/-- C8 witness: a mixed-case allowed extension is accepted and mapped to
its documented MIME type; an extension outside the allow-list is rejected
and mapped to the generic binary-stream type. -/
theorem C8_witness :
    isExtensionAllowed "image.PNG" = true ∧
    getMimeType "image.PNG" = "image/png" ∧
    isExtensionAllowed "file.exe" = false ∧
    getMimeType "file.exe" = "application/octet-stream" :=
  ⟨(C8_mime_contract "image" "PNG" (by decide) (by decide) (by decide)
      (by decide)).1.mpr (by decide),
   (C8_mime_contract "image" "PNG" (by decide) (by decide) (by decide)
      (by decide)).2.1 "image/png" rfl,
   ((C8_mime_contract "file" "exe" (by decide) (by decide) (by decide)
      (by decide)).2.2 (by decide)).1,
   ((C8_mime_contract "file" "exe" (by decide) (by decide) (by decide)
      (by decide)).2.2 (by decide)).2⟩

end GhUploadImage
